import Mathlib

/-!
# Verification of the excalibur-text layout and render-cache components

Shallow embedding of the TypeScript sources:

* `src/wrap.ts` — `measureLine`, `appendWrappedTextLine`, `wrapText`
  (greedy word-wrap via a scan / pairwise / filter pipeline);
* `src/renderer.ts` — `TextRenderer.updateIfRequired`, `TextRenderer.renderImage`
  (render cache keyed on a style snapshot);
* `src/unnamed/part_000` — the revision of `TextRenderer` whose `updateCache`
  computes outline- and shadow-inflated canvas extents (the asymmetric-margin
  variant adopted by the specification);
* `src/style.ts` — enum-to-platform-string lookups.

Modelling conventions:

* JavaScript strings are modelled as `List Char` (`Str`); JavaScript numbers as
  `ℚ` (exact real arithmetic; float rounding is out of scope), and the wrap
  width, which may be `Infinity`, as `WithTop ℚ` with `⊤` for `Infinity`.
* The canvas 2D context is abstracted to its observable behaviour: a
  deterministic measurement function `Str → LineMetrics` (`measureText`
  composed with `measureLine`'s post-processing), matching the spec's
  "measurer capability".
* JavaScript object references (`Color`, `Vector`) are modelled as a value
  paired with a numeric object identity, so that `===` on objects (reference
  equality) and component-wise value equality are distinct relations.
-/

/-- JavaScript strings, modelled as lists of characters. -/
abbrev Str := List Char

/-- The `\s` character class used by `line.split(/\s/u)` in `wrapText`
(ASCII whitespace plus no-break space; the full Unicode class contains
further exotic space characters that no claim depends on). -/
def jsWhitespace (c : Char) : Bool :=
  c == ' ' || c == '\t' || c == '\n' || c == '\r' || c == '\x0B' ||
    c == '\x0C' || c == ' '

/-- JavaScript `String.prototype.split` against a single-character class:
each matching character is a separator; separators are not grouped, so
consecutive separators yield empty fields, and the result is never empty
(`"".split(...)` is `[""]`). Models `text.split(/\n/u)` and
`line.split(/\s/u)` in `src/wrap.ts`. -/
def splitOnPred (p : Char → Bool) : Str → List Str
  | [] => [[]]
  | c :: cs =>
    if p c then [] :: splitOnPred p cs
    else
      match splitOnPred p cs with
      | [] => [[c]]
      | w :: ws => (c :: w) :: ws

theorem splitOnPred_ne_nil (p : Char → Bool) (cs : Str) : splitOnPred p cs ≠ [] := by
  induction cs with
  | nil => simp [splitOnPred]
  | cons c cs ih =>
    simp only [splitOnPred]
    split
    · simp
    · split
      · simp
      · simp

/-- Per-line measurement record (`LineMetrics` in `src/wrap.ts`). -/
structure LineMetrics where
  left : ℚ
  right : ℚ
  top : ℚ
  bottom : ℚ
  width : ℚ
deriving DecidableEq

/-- The measurement capability: `text ↦ measureLine({context, text, fontSize,
lineHeight})` for a fixed context, font size and line height.  `wrapText` only
interacts with the context through this function. -/
abbrev Measure := Str → LineMetrics

/-- `WrappedText` in `src/wrap.ts`: the emitted lines plus the aggregate
asymmetric bounding box. -/
structure WrappedText where
  lines : List Str
  left : ℚ
  right : ℚ
  top : ℚ
  bottom : ℚ
deriving DecidableEq

/-- `appendWrappedTextLine` in `src/wrap.ts` (lines 69–83): append one line and
fold its metrics into the aggregate bounding box; the vertical contributions
are offset by `lineHeight * lines.length`, the zero-based index the new line
receives. -/
def appendWrappedTextLine (wt : WrappedText) (line : Str × LineMetrics)
    (lineHeight : ℚ) : WrappedText where
  lines := wt.lines ++ [line.1]
  left := max wt.left line.2.left
  right := max wt.right line.2.right
  top := max wt.top (line.2.top - lineHeight * wt.lines.length)
  bottom := max wt.bottom (line.2.bottom + lineHeight * wt.lines.length)

/-- The fold at the end of `wrapText` (`foldFn(appendWrappedTextLine, {lines:
[], left: 0, right: 0, top: 0, bottom: 0})`, lines 134–150 of
`src/wrap.ts`). -/
def foldWrappedLines (lineHeight : ℚ) (items : List (Str × LineMetrics)) :
    WrappedText :=
  items.foldl (fun wt lm => appendWrappedTextLine wt lm lineHeight)
    ⟨[], 0, 0, 0, 0⟩

/-- `WrapTextAccumulator` in `src/wrap.ts`. -/
structure WrapTextAccumulator where
  line : Str
  metrics : LineMetrics
  newLine : Bool
deriving DecidableEq

/-- The `first` accumulator seeding the scan in `wrapText`. -/
def firstAcc : WrapTextAccumulator :=
  ⟨[], ⟨0, 0, 0, 0, 0⟩, false⟩

/-- The `last` sentinel pushed after the scan in `wrapText`. -/
def lastAcc : WrapTextAccumulator :=
  ⟨[], ⟨0, 0, 0, 0, 0⟩, true⟩

/-- One step of the scan in `wrapText` (lines 111–126 of `src/wrap.ts`):
extend the candidate with the next word (a single joining space, or the word
alone if the candidate is empty); if the extension measures wider than
`wrapWidth` and is not the word alone, start a new line at the word. -/
def wrapStep (m : Measure) (wrapWidth : WithTop ℚ)
    (acc : WrapTextAccumulator) (word : Str) : WrapTextAccumulator :=
  let line := if acc.line = [] then word else acc.line ++ ' ' :: word
  let metrics := m line
  if wrapWidth < (metrics.width : WithTop ℚ) ∧ line ≠ word then
    { line := word, metrics := m word, newLine := true }
  else
    { line := line, metrics := metrics, newLine := false }

/-- The states produced by `scanFn(wrapStep, first)`: one accumulator per input
word. -/
def scanStates (m : Measure) (wrapWidth : WithTop ℚ)
    (acc : WrapTextAccumulator) : List Str → List WrapTextAccumulator
  | [] => []
  | w :: ws =>
    let a := wrapStep m wrapWidth acc w
    a :: scanStates m wrapWidth a ws

/-- `pairwise` from the iterable library: adjacent pairs of a sequence. -/
def pairwise (l : List α) : List (α × α) := l.zip l.tail

/-- The word-splitting pipeline of `wrapText` applied to the words of one
too-wide paragraph: scan, push the `last` sentinel, take adjacent pairs, keep
the pairs whose second component starts a new line, and emit the first
component of each. -/
def wrapParagraphWords (m : Measure) (wrapWidth : WithTop ℚ)
    (words : List Str) : List (Str × LineMetrics) :=
  ((pairwise (scanStates m wrapWidth firstAcc words ++ [lastAcc])).filter
      (fun p => p.2.newLine)).map
    (fun p => (p.1.line, p.1.metrics))

/-- The `concatMapFn` body of `wrapText`: a paragraph whose measured width is
within `wrapWidth` is emitted unchanged as one line; otherwise it is split on
whitespace and packed greedily. -/
def wrapParagraph (m : Measure) (wrapWidth : WithTop ℚ) (para : Str) :
    List (Str × LineMetrics) :=
  let metrics := m para
  if (metrics.width : WithTop ℚ) ≤ wrapWidth then [(para, metrics)]
  else wrapParagraphWords m wrapWidth (splitOnPred jsWhitespace para)

/-- `wrapText` in `src/wrap.ts` (lines 91–151): split the text into
`\n`-delimited paragraphs, wrap each, and fold all lines into a `WrappedText`
with the aggregate bounding box. -/
def wrapText (m : Measure) (wrapWidth : WithTop ℚ) (lineHeight : ℚ)
    (text : Str) : WrappedText :=
  foldWrappedLines lineHeight
    ((splitOnPred (· == '\n') text).flatMap (wrapParagraph m wrapWidth))

/-! ## Characterisation of the scan / pairwise / filter pipeline

`emitAux` is a direct recursive description of the lines the pipeline emits:
a state's line is emitted as soon as the following state starts a new line,
and the final in-progress state is flushed by the `last` sentinel. -/

/-- The candidate line formed in `wrapStep`: the word joined to the
accumulated candidate by a single space, or the word alone when the
candidate is empty. -/
def extendLine (cand word : Str) : Str :=
  if cand = [] then word else cand ++ ' ' :: word

/-- Equation lemma: `wrapStep` when the extended candidate is too wide and is
not the word alone. -/
theorem wrapStep_pos (m : Measure) (W : WithTop ℚ) (acc : WrapTextAccumulator)
    (w : Str)
    (h : W < ((m (extendLine acc.line w)).width : WithTop ℚ) ∧
      extendLine acc.line w ≠ w) :
    wrapStep m W acc w = ⟨w, m w, true⟩ := by
  have heq : wrapStep m W acc w =
      if W < ((m (extendLine acc.line w)).width : WithTop ℚ) ∧
          extendLine acc.line w ≠ w then ⟨w, m w, true⟩
      else ⟨extendLine acc.line w, m (extendLine acc.line w), false⟩ := rfl
  rw [heq, if_pos h]

/-- Equation lemma: `wrapStep` when the extended candidate is accepted. -/
theorem wrapStep_neg (m : Measure) (W : WithTop ℚ) (acc : WrapTextAccumulator)
    (w : Str)
    (h : ¬(W < ((m (extendLine acc.line w)).width : WithTop ℚ) ∧
      extendLine acc.line w ≠ w)) :
    wrapStep m W acc w =
      ⟨extendLine acc.line w, m (extendLine acc.line w), false⟩ := by
  have heq : wrapStep m W acc w =
      if W < ((m (extendLine acc.line w)).width : WithTop ℚ) ∧
          extendLine acc.line w ≠ w then ⟨w, m w, true⟩
      else ⟨extendLine acc.line w, m (extendLine acc.line w), false⟩ := rfl
  rw [heq, if_neg h]

/-- Recursive characterisation of the lines emitted by the word-splitting
pipeline, starting from accumulator `acc` with the words `ws` still to be
consumed. -/
def emitAux (m : Measure) (wrapWidth : WithTop ℚ)
    (acc : WrapTextAccumulator) : List Str → List (Str × LineMetrics)
  | [] => [(acc.line, acc.metrics)]
  | w :: ws =>
    if (wrapStep m wrapWidth acc w).newLine then
      (acc.line, acc.metrics) :: emitAux m wrapWidth (wrapStep m wrapWidth acc w) ws
    else emitAux m wrapWidth (wrapStep m wrapWidth acc w) ws

theorem pairwise_cons_cons (a b : α) (l : List α) :
    pairwise (a :: b :: l) = (a, b) :: pairwise (b :: l) := rfl

theorem pipeline_eq_emitAux (m : Measure) (W : WithTop ℚ) :
    ∀ (ws : List Str) (acc : WrapTextAccumulator),
      ((pairwise (acc :: scanStates m W acc ws ++ [lastAcc])).filter
          (fun p => p.2.newLine)).map (fun p => (p.1.line, p.1.metrics)) =
        emitAux m W acc ws := by
  intro ws
  induction ws with
  | nil =>
    intro acc
    simp [pairwise, scanStates, emitAux, lastAcc]
  | cons w ws ih =>
    intro acc
    have hscan : scanStates m W acc (w :: ws) =
        wrapStep m W acc w :: scanStates m W (wrapStep m W acc w) ws := rfl
    rw [hscan, List.cons_append, List.cons_append, pairwise_cons_cons,
      List.filter_cons]
    by_cases hn : (wrapStep m W acc w).newLine
    · rw [if_pos (by simpa using hn), List.map_cons]
      rw [show wrapStep m W acc w :: (scanStates m W (wrapStep m W acc w) ws ++ [lastAcc]) =
        wrapStep m W acc w :: scanStates m W (wrapStep m W acc w) ws ++ [lastAcc] from rfl]
      rw [ih (wrapStep m W acc w)]
      simp [emitAux, hn]
    · rw [if_neg (by simpa using hn)]
      rw [show wrapStep m W acc w :: (scanStates m W (wrapStep m W acc w) ws ++ [lastAcc]) =
        wrapStep m W acc w :: scanStates m W (wrapStep m W acc w) ws ++ [lastAcc] from rfl]
      rw [ih (wrapStep m W acc w)]
      simp [emitAux, hn]

theorem wrapParagraphWords_nil (m : Measure) (W : WithTop ℚ) :
    wrapParagraphWords m W [] = [] := rfl

theorem wrapParagraphWords_cons (m : Measure) (W : WithTop ℚ) (w : Str)
    (ws : List Str) :
    wrapParagraphWords m W (w :: ws) =
      emitAux m W (wrapStep m W firstAcc w) ws := by
  have hscan : scanStates m W firstAcc (w :: ws) =
      wrapStep m W firstAcc w :: scanStates m W (wrapStep m W firstAcc w) ws := rfl
  unfold wrapParagraphWords
  rw [hscan]
  exact pipeline_eq_emitAux m W ws (wrapStep m W firstAcc w)

/-- In `wrapStep`, the test `line !== word` is equivalent to the pre-addition
candidate being non-empty. -/
theorem extendLine_ne_iff (cand w : Str) : extendLine cand w ≠ w ↔ cand ≠ [] := by
  unfold extendLine
  by_cases h : cand = []
  · simp [h]
  · simp only [if_neg h, ne_eq, h, not_false_iff, iff_true]
    intro hw
    have := congrArg List.length hw
    simp at this
    omega

/-- The first scan state never starts a new line: the extended candidate of
the empty initial accumulator is the word itself. -/
theorem wrapStep_firstAcc (m : Measure) (W : WithTop ℚ) (w : Str) :
    wrapStep m W firstAcc w = ⟨w, m w, false⟩ := by
  have h : ¬(W < ((m (extendLine firstAcc.line w)).width : WithTop ℚ) ∧
      extendLine firstAcc.line w ≠ w) := by
    rw [extendLine_ne_iff]
    simp [firstAcc]
  rw [wrapStep_neg m W firstAcc w h]
  simp [extendLine, firstAcc]

/-! ## The greedy word packer, stated from the specification's words -/

/-- Modelled from the spec's description of the greedy word packer (§4.1 step
3): starting from candidate `cand`, each word extends the candidate (joined by
a single space, or stands alone if the candidate is empty); if the extended
candidate measures wider than `wrapWidth` and the pre-addition candidate was
non-empty, the pre-addition candidate is closed as a line and the word starts
a new candidate; the final in-progress candidate is flushed as the last
line.  This is the spec-side reference definition that claim C1 compares the
source pipeline against. -/
def greedyLoop (m : Measure) (wrapWidth : WithTop ℚ) (cand : Str) :
    List Str → List Str
  | [] => [cand]
  | w :: ws =>
    if wrapWidth < ((m (extendLine cand w)).width : WithTop ℚ) ∧ cand ≠ [] then
      cand :: greedyLoop m wrapWidth w ws
    else greedyLoop m wrapWidth (extendLine cand w) ws

/-- The greedy word packer of the specification, run from an empty
candidate. -/
def greedyPackSpec (m : Measure) (wrapWidth : WithTop ℚ) (words : List Str) :
    List Str :=
  greedyLoop m wrapWidth [] words

theorem emitAux_map_fst_eq_greedyLoop (m : Measure) (W : WithTop ℚ) :
    ∀ (ws : List Str) (acc : WrapTextAccumulator),
      (emitAux m W acc ws).map Prod.fst = greedyLoop m W acc.line ws := by
  intro ws
  induction ws with
  | nil => intro acc; simp [emitAux, greedyLoop]
  | cons w ws ih =>
    intro acc
    by_cases hcond : W < ((m (extendLine acc.line w)).width : WithTop ℚ) ∧
        extendLine acc.line w ≠ w
    · have hstep := wrapStep_pos m W acc w hcond
      have hcond' : W < ((m (extendLine acc.line w)).width : WithTop ℚ) ∧
          acc.line ≠ [] := ⟨hcond.1, (extendLine_ne_iff acc.line w).mp hcond.2⟩
      rw [emitAux, hstep, greedyLoop, if_pos hcond']
      simp only [List.map_cons, List.cons.injEq, true_and]
      have := ih ⟨w, m w, true⟩
      simpa using this
    · have hstep := wrapStep_neg m W acc w hcond
      have hcond' : ¬(W < ((m (extendLine acc.line w)).width : WithTop ℚ) ∧
          acc.line ≠ []) := fun hc =>
        hcond ⟨hc.1, (extendLine_ne_iff acc.line w).mpr hc.2⟩
      rw [emitAux, hstep, greedyLoop, if_neg hcond']
      simp only [Bool.false_eq_true, if_false]
      have := ih ⟨extendLine acc.line w, m (extendLine acc.line w), false⟩
      simpa using this

/-! ## Characterisation of the bounding-box fold -/

/-- `appendWrappedTextLine` folded from an arbitrary starting `WrappedText`:
the lines are appended in order; `left`/`right` accumulate maxima of the
per-line extents; `top`/`bottom` accumulate maxima of the per-line vertical
extents offset by `lineHeight` times the zero-based position each line
receives. -/
theorem foldWrappedLines_go (lineHeight : ℚ) :
    ∀ (items : List (Str × LineMetrics)) (wt : WrappedText),
      items.foldl (fun w lm => appendWrappedTextLine w lm lineHeight) wt =
        ⟨wt.lines ++ items.map Prod.fst,
          (items.map (fun i => i.2.left)).foldl max wt.left,
          (items.map (fun i => i.2.right)).foldl max wt.right,
          ((List.enumFrom wt.lines.length items).map
            (fun p => p.2.2.top - lineHeight * (p.1 : ℚ))).foldl max wt.top,
          ((List.enumFrom wt.lines.length items).map
            (fun p => p.2.2.bottom + lineHeight * (p.1 : ℚ))).foldl max wt.bottom⟩ := by
  intro items
  induction items with
  | nil => intro wt; simp [List.enumFrom]
  | cons i rest ih =>
    intro wt
    rw [List.foldl_cons, ih (appendWrappedTextLine wt i lineHeight)]
    simp [appendWrappedTextLine, List.enumFrom]

theorem foldWrappedLines_lines (lineHeight : ℚ)
    (items : List (Str × LineMetrics)) :
    (foldWrappedLines lineHeight items).lines = items.map Prod.fst := by
  rw [foldWrappedLines, foldWrappedLines_go]
  simp

theorem wrapText_lines (m : Measure) (W : WithTop ℚ) (lineHeight : ℚ)
    (text : Str) :
    (wrapText m W lineHeight text).lines =
      ((splitOnPred (· == '\n') text).flatMap (wrapParagraph m W)).map
        Prod.fst := by
  rw [wrapText, foldWrappedLines_lines]

/-! ## Splitting lemmas -/

theorem splitOnPred_eq_single (p : Char → Bool) (cs : Str)
    (h : ∀ c ∈ cs, p c = false) : splitOnPred p cs = [cs] := by
  induction cs with
  | nil => rfl
  | cons c cs ih =>
    have hc : p c = false := h c (by simp)
    rw [splitOnPred, if_neg (by simp [hc]), ih (fun x hx => h x (by simp [hx]))]

/-! ## Lemmas for the no-mid-word-splitting property -/

/-- Joining a block of words with single spaces, as the greedy packer
assembles candidate lines. -/
def spaceJoin : List Str → Str
  | [] => []
  | w :: ws => ws.foldl (fun acc v => acc ++ ' ' :: v) w

theorem spaceJoin_append_single (I : List Str) (hI : I ≠ []) (w : Str) :
    spaceJoin (I ++ [w]) = spaceJoin I ++ ' ' :: w := by
  cases I with
  | nil => contradiction
  | cons v vs => simp [spaceJoin, List.foldl_append]

theorem suffix_infix_extend {α : Type} {I done rest : List α}
    (h : I <:+ done) : I <:+: done ++ rest := by
  obtain ⟨t, ht⟩ := h
  exact ⟨t, rest, by rw [← ht]⟩

/-- Every line the word-splitting pipeline emits is the single-space join of a
non-empty contiguous block of the words already consumed. -/
theorem emitAux_infix (m : Measure) (W : WithTop ℚ) :
    ∀ (ws : List Str) (acc : WrapTextAccumulator) (done : List Str),
      (∃ I, I ≠ [] ∧ I <:+ done ∧ acc.line = spaceJoin I) →
      ∀ p ∈ emitAux m W acc ws,
        ∃ I, I ≠ [] ∧ I <:+: done ++ ws ∧ p.1 = spaceJoin I := by
  intro ws
  induction ws with
  | nil =>
    intro acc done hinv p hp
    obtain ⟨I, hne, hsuf, hline⟩ := hinv
    simp only [emitAux, List.mem_singleton] at hp
    exact ⟨I, hne, by simpa using @suffix_infix_extend _ I done [] hsuf,
      by rw [hp, hline]⟩
  | cons w ws ih =>
    intro acc done hinv p hp
    obtain ⟨I, hne, hsuf, hline⟩ := hinv
    have hstepinv : ∃ I, I ≠ [] ∧ I <:+ done ++ [w] ∧
        (wrapStep m W acc w).line = spaceJoin I := by
      by_cases hcond : W < ((m (extendLine acc.line w)).width : WithTop ℚ) ∧
          extendLine acc.line w ≠ w
      · refine ⟨[w], by simp, ⟨done, rfl⟩, ?_⟩
        rw [wrapStep_pos m W acc w hcond]
        rfl
      · rw [wrapStep_neg m W acc w hcond]
        by_cases hcnil : acc.line = []
        · refine ⟨[w], by simp, ⟨done, rfl⟩, ?_⟩
          simp [extendLine, hcnil, spaceJoin]
        · refine ⟨I ++ [w], by simp, ?_, ?_⟩
          · obtain ⟨t, ht⟩ := hsuf
            exact ⟨t, by rw [← List.append_assoc, ht]⟩
          · simp only [extendLine, if_neg hcnil]
            rw [hline, spaceJoin_append_single I hne w]
    have hrest : ∀ q ∈ emitAux m W (wrapStep m W acc w) ws,
        ∃ I, I ≠ [] ∧ I <:+: done ++ w :: ws ∧ q.1 = spaceJoin I := by
      intro q hq
      have := ih (wrapStep m W acc w) (done ++ [w]) hstepinv q hq
      simpa using this
    rw [emitAux] at hp
    by_cases hn : (wrapStep m W acc w).newLine
    · rw [if_pos hn] at hp
      rcases List.mem_cons.mp hp with hhead | htail
      · exact ⟨I, hne, suffix_infix_extend hsuf, by rw [hhead, hline]⟩
      · exact hrest p htail
    · rw [if_neg hn] at hp
      exact hrest p hp

/-! ## Lemmas for the line-width invariant -/

/-- Every line the word-splitting pipeline emits is either literally one of
the words, or measures within the wrap width. -/
theorem emitAux_width (m : Measure) (W : WithTop ℚ) :
    ∀ (ws : List Str) (acc : WrapTextAccumulator) (allW : List Str),
      (acc.line ∈ allW ∨ ((m acc.line).width : WithTop ℚ) ≤ W) →
      (∀ w ∈ ws, w ∈ allW) →
      ∀ p ∈ emitAux m W acc ws,
        p.1 ∈ allW ∨ ((m p.1).width : WithTop ℚ) ≤ W := by
  intro ws
  induction ws with
  | nil =>
    intro acc allW hinv _ p hp
    simp only [emitAux, List.mem_singleton] at hp
    rw [hp]
    exact hinv
  | cons w ws ih =>
    intro acc allW hinv hall p hp
    have hstepinv : (wrapStep m W acc w).line ∈ allW ∨
        ((m (wrapStep m W acc w).line).width : WithTop ℚ) ≤ W := by
      by_cases hcond : W < ((m (extendLine acc.line w)).width : WithTop ℚ) ∧
          extendLine acc.line w ≠ w
      · rw [wrapStep_pos m W acc w hcond]
        exact Or.inl (hall w (by simp))
      · rw [wrapStep_neg m W acc w hcond]
        rcases not_and_or.mp hcond with hwidth | hword
        · exact Or.inr (not_lt.mp hwidth)
        · have : extendLine acc.line w = w := not_not.mp hword
          rw [this]
          exact Or.inl (hall w (by simp))
    rw [emitAux] at hp
    have hall' : ∀ v ∈ ws, v ∈ allW := fun v hv => hall v (by simp [hv])
    by_cases hn : (wrapStep m W acc w).newLine
    · rw [if_pos hn] at hp
      rcases List.mem_cons.mp hp with hhead | htail
      · rw [hhead]
        exact hinv
      · exact ih (wrapStep m W acc w) allW hstepinv hall' p htail
    · rw [if_neg hn] at hp
      exact ih (wrapStep m W acc w) allW hstepinv hall' p hp

/-! ## The renderer (`src/renderer.ts`, `src/unnamed/part_000`)

Engine value types, object references, the attribute snapshot, the cache, and
the two revisions of the rebuild. -/

/-- `FontStyle` from excalibur. -/
inductive FontStyle
  | normal
  | italic
  | oblique
deriving DecidableEq

/-- `TextAlign` from excalibur. -/
inductive TextAlign
  | left
  | right
  | center
  | start
  | «end»
deriving DecidableEq

/-- `BaseAlign` from excalibur. -/
inductive BaseAlign
  | alphabetic
  | bottom
  | hanging
  | ideographic
  | middle
  | top
deriving DecidableEq

/-- An engine `Color` value: RGBA components (`a = 0` is fully
transparent). -/
structure Color where
  r : ℚ
  g : ℚ
  b : ℚ
  a : ℚ
deriving DecidableEq

/-- A JavaScript reference to a `Color` object: the component values plus the
object's identity. `===` on two such references compares `id`; value equality
compares `val`. -/
structure ColorRef where
  id : ℕ
  val : Color
deriving DecidableEq

/-- An engine 2D `Vector` value. -/
structure Vec2 where
  x : ℚ
  y : ℚ
deriving DecidableEq

/-- A JavaScript reference to a `Vector` object. -/
structure VectorRef where
  id : ℕ
  val : Vec2
deriving DecidableEq

/-- The extended glyph bounding-box extents optionally reported by
`measureText` (`actualBoundingBoxLeft`/`Right`/`Ascent`/`Descent`); `none`
models a platform whose `actualBoundingBoxLeft` is `null`/`undefined`. -/
structure BoxExtents where
  left : ℚ
  right : ℚ
  ascent : ℚ
  descent : ℚ
deriving DecidableEq

/-- The raw `TextMetrics` record returned by `context.measureText`. -/
structure TextMetricsJS where
  width : ℚ
  extents : Option BoxExtents
deriving DecidableEq

/-- JavaScript `Math.trunc`: round toward zero. -/
def jsTrunc (q : ℚ) : ℤ := if q < 0 then ⌈q⌉ else ⌊q⌋

/-- `measureLine` in `src/wrap.ts` (lines 27–46).  When the platform reports
no bounding-box extents, return the heuristic fallback box: `left` and
`right` are the advance width plus `2 × fontSize`, `top` and `bottom` are
`lineHeight` plus `2 × fontSize`, and `width` is the advance width.
Otherwise truncate each reported extent and add 1.  The function is total:
the fallback path raises no error. -/
def measureLine (rawMeasure : Str → TextMetricsJS) (fontSize lineHeight : ℚ)
    (text : Str) : LineMetrics :=
  let metrics := rawMeasure text
  match metrics.extents with
  | none =>
    { left := metrics.width + fontSize * 2
      right := metrics.width + fontSize * 2
      top := lineHeight + fontSize * 2
      bottom := lineHeight + fontSize * 2
      width := metrics.width }
  | some e =>
    { left := (jsTrunc e.left : ℚ) + 1
      right := (jsTrunc e.right : ℚ) + 1
      top := (jsTrunc e.ascent : ℚ) + 1
      bottom := (jsTrunc e.descent : ℚ) + 1
      width := metrics.width }

/-- The attribute snapshot held by a `TextRenderer` (the fifteen constructor
fields of `src/renderer.ts`). -/
structure TextAttrs where
  text : Str
  fontFamily : Str
  fontStyle : FontStyle
  bold : Bool
  fontSize : ℚ
  textAlign : TextAlign
  baseAlign : BaseAlign
  lineHeight : Option ℚ
  wrapWidth : WithTop ℚ
  color : ColorRef
  outlineColor : ColorRef
  outlineWidth : ℚ
  shadowColor : ColorRef
  shadowOffset : VectorRef
  shadowBlurRadius : ℚ
deriving DecidableEq

/-- The cache of `src/renderer.ts`: the canvas is abstracted to its
dimensions; `left`/`top` are the recorded draw offset. -/
structure CacheEntry where
  width : ℚ
  height : ℚ
  left : ℚ
  top : ℚ
deriving DecidableEq

/-- A `TextRenderer` instance: the snapshot it was constructed with plus its
mutable `cache` field (initially `null`). -/
structure TextRendererState where
  attrs : TextAttrs
  cache : Option CacheEntry
deriving DecidableEq

/-- The `===`-conjunction tested by `TextRenderer.updateIfRequired`
(`src/renderer.ts` lines 55–69): primitive fields (strings, numbers,
booleans, enum members, `undefined`) are compared by value, and the
object-typed fields `color`, `outlineColor`, `shadowColor` and `shadowOffset`
are compared by reference identity, exactly as JavaScript `===` behaves on
each field's type. -/
def jsEqAttrs (s a : TextAttrs) : Prop :=
  s.text = a.text ∧ s.fontFamily = a.fontFamily ∧ s.fontStyle = a.fontStyle ∧
    s.bold = a.bold ∧ s.fontSize = a.fontSize ∧ s.textAlign = a.textAlign ∧
    s.baseAlign = a.baseAlign ∧ s.lineHeight = a.lineHeight ∧
    s.wrapWidth = a.wrapWidth ∧ s.color.id = a.color.id ∧
    s.outlineColor.id = a.outlineColor.id ∧
    s.outlineWidth = a.outlineWidth ∧ s.shadowColor.id = a.shadowColor.id ∧
    s.shadowOffset.id = a.shadowOffset.id ∧
    s.shadowBlurRadius = a.shadowBlurRadius

instance (s a : TextAttrs) : Decidable (jsEqAttrs s a) := by
  unfold jsEqAttrs
  infer_instance

/-- Value equality of every constituent field of two attribute snapshots:
object-typed fields are compared component-wise, ignoring object identity.
Stated from the spec's "style snapshots are compared by value, not object
identity, for every constituent field" (claim C2's reading). -/
def valueEqAttrs (s a : TextAttrs) : Prop :=
  s.text = a.text ∧ s.fontFamily = a.fontFamily ∧ s.fontStyle = a.fontStyle ∧
    s.bold = a.bold ∧ s.fontSize = a.fontSize ∧ s.textAlign = a.textAlign ∧
    s.baseAlign = a.baseAlign ∧ s.lineHeight = a.lineHeight ∧
    s.wrapWidth = a.wrapWidth ∧ s.color.val = a.color.val ∧
    s.outlineColor.val = a.outlineColor.val ∧
    s.outlineWidth = a.outlineWidth ∧ s.shadowColor.val = a.shadowColor.val ∧
    s.shadowOffset.val = a.shadowOffset.val ∧
    s.shadowBlurRadius = a.shadowBlurRadius

instance (s a : TextAttrs) : Decidable (valueEqAttrs s a) := by
  unfold valueEqAttrs
  infer_instance

/-- `TextRenderer.updateIfRequired` (`src/renderer.ts` lines 38–88): return
`this` unchanged when every argument compares `===`-equal to the stored
snapshot; otherwise construct a fresh `TextRenderer` (whose cache is empty)
carrying the new snapshot. -/
def updateIfRequired (r : TextRendererState) (a : TextAttrs) :
    TextRendererState :=
  if jsEqAttrs r.attrs a then r else ⟨a, none⟩

/-- Failure modes of the rebuild: the 2D context being unobtainable
(`notNull(canvas.getContext("2d"))` throwing) or any other rebuild step
throwing. -/
inductive RenderError
  | contextUnavailable
  | stepFailure (code : ℕ)
deriving DecidableEq

/-- The ambient canvas capability a rebuild runs against: `getContext("2d")`
may yield no context (`none`), and some later rebuild step may throw
(`drawError = some e`).  An available context is abstracted to its
measurement behaviour. -/
structure CanvasEnv where
  context2d : Option Measure
  drawError : Option RenderError

/-- One call to the engine's `drawImage`: the blitted bitmap's dimensions and
the position it is drawn at. -/
structure DrawImageCall where
  width : ℚ
  height : ℚ
  x : ℚ
  y : ℚ
deriving DecidableEq

/-- The cache entry built by the rebuild inside `TextRenderer.renderImage`
(`src/renderer.ts` lines 91–137): wrap the text against the context's
measurer; without a shadow (`shadowColor.a === 0`) the canvas is
`(left+right) × (top+bottom)` with draw offset `(left, top)`; with a shadow
the final canvas is inflated by `4 × shadowBlurRadius` in each dimension and
the recorded offset by `2 × shadowBlurRadius` on each axis. -/
def buildCacheEntry (m : Measure) (a : TextAttrs) : CacheEntry :=
  let lineHeight := a.lineHeight.getD a.fontSize
  let wt := wrapText m a.wrapWidth lineHeight a.text
  if a.shadowColor.val.a = 0 then
    ⟨wt.left + wt.right, wt.top + wt.bottom, wt.left, wt.top⟩
  else
    ⟨wt.left + wt.right + a.shadowBlurRadius * 4,
      wt.top + wt.bottom + a.shadowBlurRadius * 4,
      wt.left + a.shadowBlurRadius * 2, wt.top + a.shadowBlurRadius * 2⟩

/-- The fallible monolithic rebuild: acquire the 2D context, then run the
measurement and drawing steps.  In the source, `this.cache` is assigned only
after the final build step, so a throw anywhere leaves the cache field
untouched. -/
def rebuildCache (env : CanvasEnv) (a : TextAttrs) :
    Except RenderError CacheEntry :=
  match env.context2d with
  | none => .error .contextUnavailable
  | some m =>
    match env.drawError with
    | some e => .error e
    | none => .ok (buildCacheEntry m a)

/-- The observable outcome of one `renderImage` call: the renderer's state
after the call, the draw performed (or the propagated error), and whether the
`this.cache == null` rebuild branch was entered. -/
structure RenderStep where
  renderer : TextRendererState
  result : Except RenderError DrawImageCall
  rebuildEntered : Bool

/-- `TextRenderer.renderImage` (`src/renderer.ts` lines 90–140): when the
cache is empty, run the monolithic rebuild, propagating any error without
assigning the cache; then blit the cached canvas at
`(x − cache.left, y − cache.top)`. -/
def renderImage (env : CanvasEnv) (r : TextRendererState) (x y : ℚ) :
    RenderStep :=
  match r.cache with
  | some c => ⟨r, .ok ⟨c.width, c.height, x - c.left, y - c.top⟩, false⟩
  | none =>
    match rebuildCache env r.attrs with
    | .error e => ⟨r, .error e, true⟩
    | .ok c =>
      ⟨⟨r.attrs, some c⟩, .ok ⟨c.width, c.height, x - c.left, y - c.top⟩, true⟩

/-- The extents and draw offset computed by `TextRenderer.updateCache` in the
asymmetric-margin revision (`src/unnamed/part_000` lines 96–177): each
wrapped-text bound is inflated by `Math.max(0, Math.ceil(outlineWidth))`;
without a shadow the canvas is `(left+right) × (top+bottom)` with offset
`(left, top)` (the cached bounds are `BoundingBox({left: -left, right, top:
-top, bottom})`); with a shadow each side is further inflated by
`Math.max(0, Math.trunc(2·blur ∓ offset) + 1)` and the offset absorbs the
extra left/top margins. -/
def updateCacheExtents (m : Measure) (a : TextAttrs) : CacheEntry :=
  let lineHeight := a.lineHeight.getD a.fontSize
  let wt := wrapText m a.wrapWidth lineHeight a.text
  let left := wt.left + max 0 (⌈a.outlineWidth⌉ : ℚ)
  let right := wt.right + max 0 (⌈a.outlineWidth⌉ : ℚ)
  let top := wt.top + max 0 (⌈a.outlineWidth⌉ : ℚ)
  let bottom := wt.bottom + max 0 (⌈a.outlineWidth⌉ : ℚ)
  if a.shadowColor.val.a = 0 then
    ⟨left + right, top + bottom, left, top⟩
  else
    let shadowCompositeLeft :=
      max 0 ((jsTrunc (a.shadowBlurRadius * 2 - a.shadowOffset.val.x) : ℚ) + 1)
    let shadowCompositeTop :=
      max 0 ((jsTrunc (a.shadowBlurRadius * 2 - a.shadowOffset.val.y) : ℚ) + 1)
    let shadowLeft := left + shadowCompositeLeft
    let shadowRight := right +
      max 0 ((jsTrunc (a.shadowBlurRadius * 2 + a.shadowOffset.val.x) : ℚ) + 1)
    let shadowTop := top + shadowCompositeTop
    let shadowBottom := bottom +
      max 0 ((jsTrunc (a.shadowBlurRadius * 2 + a.shadowOffset.val.y) : ℚ) + 1)
    ⟨shadowLeft + shadowRight, shadowTop + shadowBottom, shadowLeft, shadowTop⟩

/-! ## Concrete measurers used by the witnesses -/

/-- A metrics record with the given advance width. -/
def mkMetrics (w : ℚ) : LineMetrics := ⟨1, 2, 3, 4, w⟩

/-- The measurer of the spec's concrete scenario 2: width 300 for `"a b c"`,
70 for `"a b"`, 20 for `"a"`, 30 for anything else. -/
def abcMeasure : Measure := fun s =>
  if s = "a b c".data then mkMetrics 300
  else if s = "a b".data then mkMetrics 70
  else if s = "a".data then mkMetrics 20
  else mkMetrics 30

/-- A measurer reporting every string wider than 50 (width 60), for the
overlong-single-word scenario. -/
def wideMeasure : Measure := fun _ => mkMetrics 60

/-- A measurer whose bounding-box extents are all negative. -/
def negMeasure : Measure := fun _ => ⟨-1, -1, -1, -1, 0⟩

/-! ## Claim C1 — greedy word packing of too-wide paragraphs -/

/-- C1: for every paragraph whose measured width exceeds `wrapWidth`, the
word-splitting pipeline of `wrapText` emits exactly the lines of the greedy
word packer described by the specification: each whitespace-delimited word
extends the candidate (joined by a single space, or standing alone if the
candidate is empty); if the extension measures wider than `wrapWidth` and the
pre-addition candidate was non-empty, the candidate is closed as a line and
the word starts a new candidate; the final candidate is flushed as the last
line. -/
theorem c1_greedy_packing (m : Measure) (W : WithTop ℚ) (para : Str)
    (h : W < ((m para).width : WithTop ℚ)) :
    (wrapParagraph m W para).map Prod.fst =
      greedyPackSpec m W (splitOnPred jsWhitespace para) := by
  unfold wrapParagraph
  rw [if_neg (not_le.mpr h)]
  obtain ⟨w, ws, hws⟩ : ∃ w ws, splitOnPred jsWhitespace para = w :: ws := by
    cases hsp : splitOnPred jsWhitespace para with
    | nil => exact absurd hsp (splitOnPred_ne_nil _ _)
    | cons w ws => exact ⟨w, ws, rfl⟩
  rw [hws, wrapParagraphWords_cons, emitAux_map_fst_eq_greedyLoop,
    wrapStep_firstAcc]
  simp [greedyPackSpec, greedyLoop, extendLine]

/-- Witness for C1 at the spec's concrete scenario: `"a b c"` with
`wrapWidth = 100` packs to the lines `["a b", "c"]`. -/
theorem c1_greedy_packing_witness :
    (((100 : ℚ) : WithTop ℚ) < ((abcMeasure ("a b c".data)).width : WithTop ℚ)) ∧
    (wrapParagraph abcMeasure ((100 : ℚ) : WithTop ℚ) ("a b c".data)).map
        Prod.fst =
      greedyPackSpec abcMeasure ((100 : ℚ) : WithTop ℚ)
        (splitOnPred jsWhitespace ("a b c".data)) ∧
    (wrapText abcMeasure ((100 : ℚ) : WithTop ℚ) 12 ("a b c".data)).lines =
      ["a b".data, "c".data] :=
  ⟨by decide, c1_greedy_packing abcMeasure _ _ (by decide), by decide⟩

/-! ## Claim C3 — words are never split mid-word -/

/-- C3: a paragraph containing no whitespace (a single word) is emitted whole
as its own line whatever its measured width; and every line the
word-splitting pipeline emits is the single-space join of a non-empty
contiguous block of the paragraph's words, so no line boundary falls inside a
word. -/
theorem c3_no_midword_split (m : Measure) (W : WithTop ℚ) (para : Str)
    (hw : ∀ c ∈ para, jsWhitespace c = false) :
    (wrapParagraph m W para).map Prod.fst = [para] ∧
    ∀ (words : List Str) (p : Str × LineMetrics),
      p ∈ wrapParagraphWords m W words →
      ∃ I, I ≠ [] ∧ I <:+: words ∧ p.1 = spaceJoin I := by
  constructor
  · unfold wrapParagraph
    by_cases hle : ((m para).width : WithTop ℚ) ≤ W
    · rw [if_pos hle]
      rfl
    · rw [if_neg hle, splitOnPred_eq_single jsWhitespace para hw,
        wrapParagraphWords_cons, wrapStep_firstAcc]
      simp [emitAux]
  · intro words p hp
    cases words with
    | nil =>
      rw [wrapParagraphWords_nil] at hp
      simp at hp
    | cons w ws =>
      rw [wrapParagraphWords_cons] at hp
      have hinv : ∃ I, I ≠ [] ∧ I <:+ [w] ∧
          (wrapStep m W firstAcc w).line = spaceJoin I := by
        refine ⟨[w], by simp, List.suffix_refl _, ?_⟩
        rw [wrapStep_firstAcc]
        rfl
      have := emitAux_infix m W ws (wrapStep m W firstAcc w) [w] hinv p hp
      simpa using this

/-- Witness for C3 at the spec's concrete scenario: the one-word paragraph
`"supercalifragilisticexpialidocious"`, wider (60) than `wrapWidth = 50`, is
emitted whole as a single line. -/
theorem c3_no_midword_split_witness :
    (∀ c ∈ ("supercalifragilisticexpialidocious".data),
      jsWhitespace c = false) ∧
    (wrapParagraph wideMeasure ((50 : ℚ) : WithTop ℚ)
        ("supercalifragilisticexpialidocious".data)).map Prod.fst =
      ["supercalifragilisticexpialidocious".data] ∧
    (wrapText wideMeasure ((50 : ℚ) : WithTop ℚ) 12
        ("supercalifragilisticexpialidocious".data)).lines =
      ["supercalifragilisticexpialidocious".data] :=
  ⟨by decide,
    (c3_no_midword_split wideMeasure ((50 : ℚ) : WithTop ℚ) _ (by decide)).1,
    by decide⟩

/-! ## Claim C4 — unbounded wrap width disables wrapping -/

/-- C4: with `wrapWidth = Infinity` (modelled as `⊤`), `wrapText` emits
exactly one line per newline-delimited paragraph, each paragraph unchanged
and in order: the width test `width ≤ wrapWidth` always succeeds, so the
word-splitting pipeline is never entered. -/
theorem c4_unbounded_wrap (m : Measure) (lineHeight : ℚ) (text : Str) :
    (wrapText m ⊤ lineHeight text).lines = splitOnPred (· == '\n') text := by
  rw [wrapText_lines]
  have hpar : ∀ para, wrapParagraph m ⊤ para = [(para, m para)] := by
    intro para
    unfold wrapParagraph
    rw [if_pos le_top]
  generalize splitOnPred (· == '\n') text = ps
  induction ps with
  | nil => rfl
  | cons p ps ih => simp [List.flatMap_cons, hpar, ih]

/-! ## Claim C5 — the aggregate bounding box -/

/-- Counterexample to C5 as stated: a single emitted line whose metrics have
`left = -1` (so the elementwise maximum of the per-line left extents is
`-1`), yet the aggregate box returned by `wrapText` has `left = 0`: the fold
seeds every bound with `0`, so the aggregate is the maxima clamped below at
zero, not the plain elementwise maxima. -/
theorem c5_bounding_box_counterexample :
    (wrapText negMeasure ⊤ 0 ['x']).lines = [['x']] ∧
    (negMeasure ['x']).left = -1 ∧
    (wrapText negMeasure ⊤ 0 ['x']).left = 0 := by
  decide

/-- C5 (amended): the aggregate bounding box of the emitted lines satisfies:
`left` and `right` are the elementwise maxima of the per-line left and right
extents *taken together with the fold's initial zero bound*; `top` is the
maximum (with 0) over lines of `line.top − lineIndex × lineHeight`; `bottom`
is the maximum (with 0) of `line.bottom + lineIndex × lineHeight`, where
`lineIndex` is the line's zero-based position in the overall output. -/
theorem c5_bounding_box (lineHeight : ℚ) (items : List (Str × LineMetrics)) :
    (foldWrappedLines lineHeight items).lines = items.map Prod.fst ∧
    (foldWrappedLines lineHeight items).left =
      (items.map (fun i => i.2.left)).foldl max 0 ∧
    (foldWrappedLines lineHeight items).right =
      (items.map (fun i => i.2.right)).foldl max 0 ∧
    (foldWrappedLines lineHeight items).top =
      ((List.enumFrom 0 items).map
        (fun p => p.2.2.top - lineHeight * (p.1 : ℚ))).foldl max 0 ∧
    (foldWrappedLines lineHeight items).bottom =
      ((List.enumFrom 0 items).map
        (fun p => p.2.2.bottom + lineHeight * (p.1 : ℚ))).foldl max 0 := by
  rw [foldWrappedLines, foldWrappedLines_go]
  simp

/-! ## Claim C10 — every emitted line is one word or fits the wrap width -/

/-- C10: every line emitted by `wrapText` either is literally one
whitespace-delimited word of some paragraph of the input, or has measured
width at most `wrapWidth`; in particular a line holding two or more words was
accepted by the width test before being closed. -/
theorem c10_line_width_invariant (m : Measure) (W : WithTop ℚ)
    (lineHeight : ℚ) (text : Str) (line : Str)
    (hmem : line ∈ (wrapText m W lineHeight text).lines) :
    (∃ para ∈ splitOnPred (· == '\n') text,
      line ∈ splitOnPred jsWhitespace para) ∨
    ((m line).width : WithTop ℚ) ≤ W := by
  rw [wrapText_lines] at hmem
  obtain ⟨p, hp, hline⟩ := List.mem_map.mp hmem
  obtain ⟨para, hpara, hp2⟩ := List.mem_flatMap.mp hp
  subst hline
  unfold wrapParagraph at hp2
  by_cases hle : ((m para).width : WithTop ℚ) ≤ W
  · rw [if_pos hle] at hp2
    simp only [List.mem_singleton] at hp2
    right
    rw [hp2]
    exact hle
  · rw [if_neg hle] at hp2
    cases hws : splitOnPred jsWhitespace para with
    | nil => exact absurd hws (splitOnPred_ne_nil _ _)
    | cons w ws =>
      rw [hws, wrapParagraphWords_cons] at hp2
      have hinv : (wrapStep m W firstAcc w).line ∈ w :: ws ∨
          ((m (wrapStep m W firstAcc w).line).width : WithTop ℚ) ≤ W := by
        rw [wrapStep_firstAcc]
        exact Or.inl (by simp)
      have hres := emitAux_width m W ws (wrapStep m W firstAcc w) (w :: ws)
        hinv (fun v hv => by simp [hv]) p hp2
      rcases hres with hin | hwid
      · left
        exact ⟨para, hpara, by rw [hws]; exact hin⟩
      · right
        exact hwid

/-- Witness for C10: in the `"a b c"` scenario the emitted line `"a b"` is
not a single input word, and indeed measures 70 ≤ 100. -/
theorem c10_line_width_invariant_witness :
    ("a b".data ∈
      (wrapText abcMeasure ((100 : ℚ) : WithTop ℚ) 12 ("a b c".data)).lines) ∧
    ((∃ para ∈ splitOnPred (· == '\n') ("a b c".data),
        "a b".data ∈ splitOnPred jsWhitespace para) ∨
      ((abcMeasure ("a b".data)).width : WithTop ℚ) ≤ ((100 : ℚ) : WithTop ℚ)) :=
  ⟨by decide,
    c10_line_width_invariant abcMeasure ((100 : ℚ) : WithTop ℚ) 12
      ("a b c".data) ("a b".data) (by decide)⟩

/-! ## Concrete renderer fixtures used by witnesses and counterexamples -/

/-- `Color.Black`. -/
def blackColor : Color := ⟨0, 0, 0, 1⟩

/-- `Color.Transparent`. -/
def transparentColor : Color := ⟨0, 0, 0, 0⟩

/-- A default attribute snapshot (the `TextOptions` defaults), with object
identities 0–3 for the four object-typed fields. -/
def baseAttrs : TextAttrs :=
  ⟨"Hello".data, "sans-serif".data, FontStyle.normal, false, 10,
    TextAlign.left, BaseAlign.alphabetic, none, ⊤, ⟨0, blackColor⟩,
    ⟨1, transparentColor⟩, 0, ⟨2, transparentColor⟩, ⟨3, ⟨0, 0⟩⟩, 0⟩

/-- The same snapshot values, but with `color` a distinct object (fresh
identity 4) holding identical RGBA components. -/
def cloneColorAttrs : TextAttrs := { baseAttrs with color := ⟨4, blackColor⟩ }

/-- A renderer holding `baseAttrs` with a populated cache. -/
def cachedRenderer : TextRendererState := ⟨baseAttrs, some ⟨5, 6, 1, 2⟩⟩

/-- A renderer holding `baseAttrs` with an empty cache. -/
def emptyRenderer : TextRendererState := ⟨baseAttrs, none⟩

/-- A canvas environment whose 2D context is available and whose drawing
steps succeed. -/
def goodEnv : CanvasEnv := ⟨some wideMeasure, none⟩

/-- A canvas environment whose `getContext("2d")` yields no context. -/
def noContextEnv : CanvasEnv := ⟨none, none⟩

/-- `baseAttrs` with an opaque shadow, blur radius 3 and offset (5, −2). -/
def shadowAttrs : TextAttrs :=
  { baseAttrs with
    shadowColor := ⟨2, blackColor⟩
    shadowBlurRadius := 3
    shadowOffset := ⟨3, ⟨5, -2⟩⟩ }

/-! ## Claim C2 — staleness comparison of the style snapshot -/

/-- Counterexample to C2: the two snapshots are value-equal in every
constituent field (the `color` objects differ only in identity, not in
components), yet `updateIfRequired` judges the snapshot changed: it returns a
fresh renderer, discarding the populated cache, because object-typed fields
are compared with `===` (reference identity), not by value. -/
theorem c2_value_comparison_counterexample :
    valueEqAttrs cachedRenderer.attrs cloneColorAttrs ∧
    cachedRenderer.cache = some ⟨5, 6, 1, 2⟩ ∧
    updateIfRequired cachedRenderer cloneColorAttrs ≠ cachedRenderer ∧
    (updateIfRequired cachedRenderer cloneColorAttrs).cache = none := by
  decide

/-- C2 (amended): `updateIfRequired` returns the same renderer instance
(preserving its cache) exactly when every primitive field is value-equal and
every object-typed field (`color`, `outlineColor`, `shadowColor`,
`shadowOffset`) is the very same object; otherwise — including when
object-typed fields are distinct objects with identical component values — it
returns a fresh renderer with an empty cache. -/
theorem c2_reference_equality (r : TextRendererState) (a : TextAttrs) :
    (jsEqAttrs r.attrs a → updateIfRequired r a = r) ∧
    (¬jsEqAttrs r.attrs a → updateIfRequired r a = ⟨a, none⟩) := by
  constructor
  · intro h
    rw [updateIfRequired, if_pos h]
  · intro h
    rw [updateIfRequired, if_neg h]

/-- Witness for C2 (amended): resubmitting the very same snapshot (same
object identities) returns the same renderer instance. -/
theorem c2_reference_equality_witness :
    jsEqAttrs cachedRenderer.attrs baseAttrs ∧
    updateIfRequired cachedRenderer baseAttrs = cachedRenderer :=
  ⟨by decide, (c2_reference_equality cachedRenderer baseAttrs).1 (by decide)⟩

/-! ## Claim C6 — heuristic measurement fallback -/

/-- C6: when the platform reports no glyph bounding-box extents
(`actualBoundingBoxLeft == null`), `measureLine` returns the heuristic
fallback box — `left` and `right` equal to the advance width plus
`2 × fontSize`, `top` and `bottom` equal to `lineHeight` plus `2 × fontSize`,
`width` equal to the advance width.  `measureLine` is a total function, so
this path raises no error. -/
theorem c6_measure_fallback (raw : Str → TextMetricsJS)
    (fontSize lineHeight : ℚ) (text : Str)
    (h : (raw text).extents = none) :
    measureLine raw fontSize lineHeight text =
      ⟨(raw text).width + fontSize * 2, (raw text).width + fontSize * 2,
        lineHeight + fontSize * 2, lineHeight + fontSize * 2,
        (raw text).width⟩ := by
  simp [measureLine, h]

/-- A raw measurer with no bounding-box extents. -/
def fallbackRaw : Str → TextMetricsJS := fun _ => ⟨7, none⟩

/-- Witness for C6 at a concrete measurement. -/
theorem c6_measure_fallback_witness :
    (fallbackRaw ("x".data)).extents = none ∧
    measureLine fallbackRaw 10 12 ("x".data) =
      ⟨7 + 10 * 2, 7 + 10 * 2, 12 + 10 * 2, 12 + 10 * 2, 7⟩ :=
  ⟨rfl, c6_measure_fallback fallbackRaw 10 12 ("x".data) rfl⟩

/-! ## Claim C7 — cache extents in the asymmetric-margin rebuild -/

/-- The outline inflation applied to every side in `updateCache`
(`Math.max(0, Math.ceil(outlineWidth))`). -/
def outlinePad (a : TextAttrs) : ℚ := max 0 (⌈a.outlineWidth⌉ : ℚ)

/-- The wrapped text `updateCache` builds from the renderer's snapshot. -/
def wrappedOf (m : Measure) (a : TextAttrs) : WrappedText :=
  wrapText m a.wrapWidth (a.lineHeight.getD a.fontSize) a.text

/-- C7: on every cache rebuild the bitmap extents are `width = left + right`
and `height = top + bottom` where each bound is the wrapped text's bound
inflated by the outline width rounded up (and at least 0); when the shadow
colour's alpha is nonzero, each of the four sides is further inflated by its
own margin (depending on the blur radius and the shadow offset direction),
each margin at least 0, and the recorded draw offset absorbs the extra left
and top margins. -/
theorem c7_cache_extents (m : Measure) (a : TextAttrs) :
    0 ≤ outlinePad a ∧
    (a.shadowColor.val.a = 0 →
      updateCacheExtents m a =
        ⟨((wrappedOf m a).left + outlinePad a) +
            ((wrappedOf m a).right + outlinePad a),
          ((wrappedOf m a).top + outlinePad a) +
            ((wrappedOf m a).bottom + outlinePad a),
          (wrappedOf m a).left + outlinePad a,
          (wrappedOf m a).top + outlinePad a⟩) ∧
    (a.shadowColor.val.a ≠ 0 →
      ∃ mL mR mT mB : ℚ, 0 ≤ mL ∧ 0 ≤ mR ∧ 0 ≤ mT ∧ 0 ≤ mB ∧
        updateCacheExtents m a =
          ⟨((wrappedOf m a).left + outlinePad a + mL) +
              ((wrappedOf m a).right + outlinePad a + mR),
            ((wrappedOf m a).top + outlinePad a + mT) +
              ((wrappedOf m a).bottom + outlinePad a + mB),
            (wrappedOf m a).left + outlinePad a + mL,
            (wrappedOf m a).top + outlinePad a + mT⟩) := by
  refine ⟨le_max_left 0 _, ?_, ?_⟩
  · intro h
    simp only [updateCacheExtents, wrappedOf, outlinePad]
    rw [if_pos h]
  · intro h
    simp only [updateCacheExtents, wrappedOf, outlinePad]
    rw [if_neg h]
    exact ⟨_, _, _, _, le_max_left 0 _, le_max_left 0 _, le_max_left 0 _,
      le_max_left 0 _, rfl⟩

/-- Witness for C7 on the shadowed branch: opaque shadow, blur 3, offset
(5, −2). -/
theorem c7_cache_extents_witness :
    shadowAttrs.shadowColor.val.a ≠ 0 ∧
    (∃ mL mR mT mB : ℚ, 0 ≤ mL ∧ 0 ≤ mR ∧ 0 ≤ mT ∧ 0 ≤ mB ∧
      updateCacheExtents wideMeasure shadowAttrs =
        ⟨((wrappedOf wideMeasure shadowAttrs).left + outlinePad shadowAttrs + mL) +
            ((wrappedOf wideMeasure shadowAttrs).right + outlinePad shadowAttrs + mR),
          ((wrappedOf wideMeasure shadowAttrs).top + outlinePad shadowAttrs + mT) +
            ((wrappedOf wideMeasure shadowAttrs).bottom + outlinePad shadowAttrs + mB),
          (wrappedOf wideMeasure shadowAttrs).left + outlinePad shadowAttrs + mL,
          (wrappedOf wideMeasure shadowAttrs).top + outlinePad shadowAttrs + mT⟩) :=
  ⟨by decide, (c7_cache_extents wideMeasure shadowAttrs).2.2 (by decide)⟩

/-! ## Claims C8 and C9 — cache stability and error propagation -/

theorem jsEqAttrs_refl (a : TextAttrs) : jsEqAttrs a a := by
  unfold jsEqAttrs
  simp

/-- Whichever branch `updateIfRequired` takes, the resulting renderer's
snapshot compares `===`-equal to the arguments. -/
theorem updateIfRequired_attrs_jsEq (r : TextRendererState) (a : TextAttrs) :
    jsEqAttrs (updateIfRequired r a).attrs a := by
  unfold updateIfRequired
  by_cases h : jsEqAttrs r.attrs a
  · rw [if_pos h]
    exact h
  · rw [if_neg h]
    exact jsEqAttrs_refl a

/-- `renderImage` never changes the snapshot, only the cache. -/
theorem renderImage_attrs (env : CanvasEnv) (r : TextRendererState)
    (x y : ℚ) : (renderImage env r x y).renderer.attrs = r.attrs := by
  unfold renderImage
  cases hc : r.cache with
  | some c => rfl
  | none =>
    cases hr : rebuildCache env r.attrs with
    | error e => rfl
    | ok c => rfl

/-- When the cache is populated, `renderImage` reuses it: no rebuild branch,
unchanged state, and a draw taken straight from the cache entry. -/
theorem renderImage_cached (env : CanvasEnv) (r : TextRendererState)
    (x y : ℚ) (c : CacheEntry) (hc : r.cache = some c) :
    renderImage env r x y =
      ⟨r, Except.ok ⟨c.width, c.height, x - c.left, y - c.top⟩, false⟩ := by
  unfold renderImage
  rw [hc]

/-- When the context is available and the drawing steps succeed, one
`renderImage` call leaves the renderer with a populated cache and draws from
that very entry. -/
theorem renderImage_ok (env : CanvasEnv) (r : TextRendererState) (x y : ℚ)
    (hctx : env.context2d.isSome) (hdraw : env.drawError = none) :
    ∃ c, (renderImage env r x y).renderer.cache = some c ∧
      (renderImage env r x y).result =
        Except.ok ⟨c.width, c.height, x - c.left, y - c.top⟩ := by
  obtain ⟨mm, hm⟩ := Option.isSome_iff_exists.mp hctx
  have hrb : rebuildCache env r.attrs =
      Except.ok (buildCacheEntry mm r.attrs) := by
    unfold rebuildCache
    rw [hm, hdraw]
  cases hc : r.cache with
  | some c =>
    rw [renderImage_cached env r x y c hc]
    exact ⟨c, hc, rfl⟩
  | none =>
    refine ⟨buildCacheEntry mm r.attrs, ?_, ?_⟩ <;>
      · unfold renderImage
        rw [hc, hrb]

/-- C8: rendering twice with byte-for-byte identical attributes performs the
rasterisation build at most once.  After the first `renderImage` call,
resubmitting the unchanged attributes returns the same renderer instance, the
second `renderImage` finds the cache populated (the rebuild branch is not
entered, and the state is unchanged), and both calls emit the same draw — the
same bitmap dimensions at the same offset. -/
theorem c8_cache_stability (env : CanvasEnv) (r : TextRendererState)
    (a : TextAttrs) (x y : ℚ) (hctx : env.context2d.isSome)
    (hdraw : env.drawError = none) :
    let r1 := updateIfRequired r a
    let s1 := renderImage env r1 x y
    let r2 := updateIfRequired s1.renderer a
    let s2 := renderImage env r2 x y
    r2 = s1.renderer ∧ s2.rebuildEntered = false ∧ s2.renderer = s1.renderer ∧
      s2.result = s1.result ∧ ∃ d, s1.result = Except.ok d := by
  intro r1 s1 r2 s2
  have hjs : jsEqAttrs s1.renderer.attrs a := by
    rw [show s1.renderer.attrs = r1.attrs from renderImage_attrs env r1 x y]
    exact updateIfRequired_attrs_jsEq r a
  have hr2 : r2 = s1.renderer := by
    show updateIfRequired s1.renderer a = s1.renderer
    rw [updateIfRequired, if_pos hjs]
  obtain ⟨c, hc, hres⟩ := renderImage_ok env r1 x y hctx hdraw
  have hs2 : s2 = ⟨s1.renderer, Except.ok
      ⟨c.width, c.height, x - c.left, y - c.top⟩, false⟩ := by
    show renderImage env r2 x y = _
    rw [hr2]
    exact renderImage_cached env s1.renderer x y c hc
  refine ⟨hr2, ?_, ?_, ?_, ⟨_, hres⟩⟩
  · rw [hs2]
  · rw [hs2]
  · rw [hs2, hres]

/-- Witness for C8: a fresh renderer against a healthy environment. -/
theorem c8_cache_stability_witness :
    (goodEnv.context2d.isSome ∧ goodEnv.drawError = none) ∧
    (let r1 := updateIfRequired emptyRenderer baseAttrs
     let s1 := renderImage goodEnv r1 1 2
     let r2 := updateIfRequired s1.renderer baseAttrs
     let s2 := renderImage goodEnv r2 1 2
     r2 = s1.renderer ∧ s2.rebuildEntered = false ∧ s2.renderer = s1.renderer ∧
       s2.result = s1.result ∧ ∃ d, s1.result = Except.ok d) :=
  ⟨⟨rfl, rfl⟩, c8_cache_stability goodEnv emptyRenderer baseAttrs 1 2 rfl rfl⟩

/-- C9: if the rebuild throws during `renderImage` — in particular when the
2D context is unobtainable — the error propagates to the caller, the
renderer's cache field is left unpopulated (no partial entry is stored), and
any later `renderImage` call on the same renderer enters the rebuild branch
again. -/
theorem c9_error_propagation (env : CanvasEnv) (r : TextRendererState)
    (x y : ℚ) (hcache : r.cache = none) (e : RenderError)
    (herr : rebuildCache env r.attrs = Except.error e) :
    (renderImage env r x y).renderer = r ∧
    (renderImage env r x y).result = Except.error e ∧
    (renderImage env r x y).renderer.cache = none ∧
    (∀ (env2 : CanvasEnv) (x2 y2 : ℚ),
      (renderImage env2 r x2 y2).rebuildEntered = true) ∧
    (∀ env2 : CanvasEnv, env2.context2d = none →
      rebuildCache env2 r.attrs = Except.error RenderError.contextUnavailable) := by
  have hstep : renderImage env r x y = ⟨r, Except.error e, true⟩ := by
    unfold renderImage
    rw [hcache, herr]
  refine ⟨?_, ?_, ?_, ?_, ?_⟩
  · rw [hstep]
  · rw [hstep]
  · rw [hstep]
    exact hcache
  · intro env2 x2 y2
    unfold renderImage
    rw [hcache]
    cases hr : rebuildCache env2 r.attrs <;> rfl
  · intro env2 h2
    unfold rebuildCache
    rw [h2]

/-- Witness for C9: a renderer with an empty cache against an environment
with no 2D context. -/
theorem c9_error_propagation_witness :
    emptyRenderer.cache = none ∧
    rebuildCache noContextEnv emptyRenderer.attrs =
      Except.error RenderError.contextUnavailable ∧
    (renderImage noContextEnv emptyRenderer 1 2).renderer = emptyRenderer ∧
    (renderImage noContextEnv emptyRenderer 1 2).result =
      Except.error RenderError.contextUnavailable :=
  ⟨rfl, rfl,
    (c9_error_propagation noContextEnv emptyRenderer 1 2 rfl
      RenderError.contextUnavailable rfl).1,
    (c9_error_propagation noContextEnv emptyRenderer 1 2 rfl
      RenderError.contextUnavailable rfl).2.1⟩
